import Mathlib

/-!
Shallow embedding of the imphnen.js routing and middleware-pipeline core
(`src/utils.ts`, `src/pipeline.ts`, `src/app.ts`), together with theorems
checking the specification's claims about it.

JavaScript objects used as string-keyed maps are modeled as association
lists with unique keys (`recSet` overwrites in place, preserving insertion
order, as JS property assignment does).  JavaScript thrown values are
modeled by `JsError` (an `Error` carrying a message, or any other value).
-/

namespace Imphnen

/-! ## Association-list model of JS objects used as maps -/

/-- JS property assignment `r[k] = v` on an object built only by such
assignments: overwrite the (unique) existing entry in place, else append. -/
def recSet {α : Type} : List (String × α) → String → α → List (String × α)
  | [], k, v => [(k, v)]
  | kv :: rest, k, v => if kv.1 == k then (k, v) :: rest else kv :: recSet rest k v

/-- JS property read `r[k]`. -/
def recGet {α : Type} (r : List (String × α)) (k : String) : Option α :=
  (r.find? (fun kv => kv.1 == k)).map (fun kv => kv.2)

/-! ## JS string primitives used by the matcher (segment-level) -/

/-- Models JS `s.split('/')` (splitting on every separator, keeping empty
pieces, and returning `[""]` for the empty string). -/
def splitSlashAux : List Char → List Char → List String
  | [], acc => [String.mk acc.reverse]
  | c :: rest, acc =>
    if c == '/' then String.mk acc.reverse :: splitSlashAux rest []
    else splitSlashAux rest (c :: acc)

/-- Source `pattern.split('/')` / `pathname.split('/')`. -/
def splitSlash (s : String) : List String := splitSlashAux s.data []

/-- Models JS `part.startsWith(':')`. -/
def startsWithColon (s : String) : Bool :=
  match s.data with
  | c :: _ => c == ':'
  | [] => false

/-- Models JS `part.endsWith('?')`. -/
def endsWithQm (s : String) : Bool :=
  match s.data.getLast? with
  | some c => c == '?'
  | none => false

/-- Models JS `s.slice(1)`. -/
def sliceFrom1 (s : String) : String := String.mk (s.data.drop 1)

/-- Models JS `s.slice(0, -1)`. -/
def sliceDropLast (s : String) : String := String.mk (s.data.dropLast)

/-- Value of a hexadecimal digit, as accepted in a `%XX` escape. -/
def hexDigitVal (c : Char) : Option Nat :=
  if '0' ≤ c ∧ c ≤ '9' then some (c.toNat - '0'.toNat)
  else if 'a' ≤ c ∧ c ≤ 'f' then some (c.toNat - 'a'.toNat + 10)
  else if 'A' ≤ c ∧ c ≤ 'F' then some (c.toNat - 'A'.toNat + 10)
  else none

/-- A UTF-8 continuation byte, `0x80..0xBF`. -/
def isContinuationByte (b : Nat) : Bool :=
  0x80 ≤ b && b ≤ 0xBF

/-- Allowed first continuation byte after a three-byte lead: `0xE0` needs
`0xA0..0xBF` (no overlong encodings), `0xED` needs `0x80..0x9F` (no
surrogates), the other leads need `0x80..0xBF`. -/
def validLead3Cont (lead c1 : Nat) : Bool :=
  if lead == 0xE0 then 0xA0 ≤ c1 && c1 ≤ 0xBF
  else if lead == 0xED then 0x80 ≤ c1 && c1 ≤ 0x9F
  else isContinuationByte c1

/-- Allowed first continuation byte after a four-byte lead: `0xF0` needs
`0x90..0xBF` (no overlong encodings), `0xF4` needs `0x80..0x8F` (code
points up to `0x10FFFF`), the other leads need `0x80..0xBF`. -/
def validLead4Cont (lead c1 : Nat) : Bool :=
  if lead == 0xF0 then 0x90 ≤ c1 && c1 ≤ 0xBF
  else if lead == 0xF4 then 0x80 ≤ c1 && c1 ≤ 0x8F
  else isContinuationByte c1

/-- Models the `Decode` algorithm behind the JS builtin
`decodeURIComponent` (ECMA-262): unescaped characters pass through; a `%`
must be followed by two hex digits giving a byte; an escaped byte below
`0x80` is a character; a lead byte `0xC2..0xF4` must be followed by the
right number of escaped continuation bytes forming a well-formed UTF-8
sequence (overlong encodings, surrogates, and code points above
`0x10FFFF` rejected); anything else raises `URIError` — modeled as
`Except.error "URI malformed"`. -/
def percentDecode : List Char → Except String (List Char)
  | [] => .ok []
  | '%' :: a :: b :: rest =>
    match hexDigitVal a, hexDigitVal b with
    | some x, some y =>
      let byte := 16 * x + y
      if byte < 0x80 then
        (percentDecode rest).map (fun cs => Char.ofNat byte :: cs)
      else if 0xC2 ≤ byte ∧ byte ≤ 0xDF then
        match rest with
        | '%' :: a1 :: b1 :: rest1 =>
          match hexDigitVal a1, hexDigitVal b1 with
          | some x1, some y1 =>
            let c1 := 16 * x1 + y1
            if isContinuationByte c1 then
              (percentDecode rest1).map (fun cs =>
                Char.ofNat ((byte - 0xC0) * 0x40 + (c1 - 0x80)) :: cs)
            else .error "URI malformed"
          | _, _ => .error "URI malformed"
        | _ => .error "URI malformed"
      else if 0xE0 ≤ byte ∧ byte ≤ 0xEF then
        match rest with
        | '%' :: a1 :: b1 :: '%' :: a2 :: b2 :: rest2 =>
          match hexDigitVal a1, hexDigitVal b1, hexDigitVal a2, hexDigitVal b2 with
          | some x1, some y1, some x2, some y2 =>
            let c1 := 16 * x1 + y1
            let c2 := 16 * x2 + y2
            if validLead3Cont byte c1 && isContinuationByte c2 then
              (percentDecode rest2).map (fun cs =>
                Char.ofNat ((byte - 0xE0) * 0x1000 + (c1 - 0x80) * 0x40 + (c2 - 0x80)) :: cs)
            else .error "URI malformed"
          | _, _, _, _ => .error "URI malformed"
        | _ => .error "URI malformed"
      else if 0xF0 ≤ byte ∧ byte ≤ 0xF4 then
        match rest with
        | '%' :: a1 :: b1 :: '%' :: a2 :: b2 :: '%' :: a3 :: b3 :: rest3 =>
          match hexDigitVal a1, hexDigitVal b1, hexDigitVal a2, hexDigitVal b2,
              hexDigitVal a3, hexDigitVal b3 with
          | some x1, some y1, some x2, some y2, some x3, some y3 =>
            let c1 := 16 * x1 + y1
            let c2 := 16 * x2 + y2
            let c3 := 16 * x3 + y3
            if validLead4Cont byte c1 && isContinuationByte c2
                && isContinuationByte c3 then
              (percentDecode rest3).map (fun cs =>
                Char.ofNat ((byte - 0xF0) * 0x40000 + (c1 - 0x80) * 0x1000
                  + (c2 - 0x80) * 0x40 + (c3 - 0x80)) :: cs)
            else .error "URI malformed"
          | _, _, _, _, _, _ => .error "URI malformed"
        | _ => .error "URI malformed"
      else .error "URI malformed"
    | _, _ => .error "URI malformed"
  | '%' :: _ => .error "URI malformed"
  | c :: rest => (percentDecode rest).map (fun cs => c :: cs)

/-- The JS builtin `decodeURIComponent`, fallible: `Except.error` is the
thrown `URIError`. -/
def decodeURIComponent (s : String) : Except String String :=
  (percentDecode s.data).map String.mk

/-! ## Path matcher: `matchRoute` (src/utils.ts lines 51-78) -/

/-- The count of pattern parts that are not optional parameters:
`patternParts.filter(part => !part.startsWith(':') || !part.endsWith('?')).length`. -/
def minPatternLength (patternParts : List String) : Nat :=
  (patternParts.filter (fun part => !startsWithColon part || !endsWithQm part)).length

/-- The `patternParts.every((part, i) => ...)` scan from `matchRoute`:
for a parameter part the path part must exist (`!== undefined`) unless the
parameter is optional; a literal part must equal the path part (comparison
with `undefined` is false). -/
def partsMatch : List String → List String → Bool
  | [], _ => true
  | part :: ps, [] =>
    (if startsWithColon part then endsWithQm part else false) && partsMatch ps []
  | part :: ps, pathPart :: qs =>
    (if startsWithColon part then true else part == pathPart) && partsMatch ps qs

/-- Function `matchRoute(pattern, pathname)` from src/utils.ts. -/
def matchRoute (pattern pathname : String) : Bool :=
  let patternParts := splitSlash pattern
  let pathParts := splitSlash pathname
  if pathParts.length < minPatternLength patternParts then false
  else if pathParts.length > patternParts.length then false
  else partsMatch patternParts pathParts

/-! ## Parameter extraction: `parseURLParams` (src/utils.ts lines 5-39) -/

/-- The indexed `for (let i = 0; i < maxLength; i++)` loop body of
`parseURLParams`.  An early `return {}` (required parameter missing, or a
literal mismatch within the common length) yields the empty map and stops;
a `URIError` thrown by `decodeURIComponent` on a captured segment
propagates out of the whole function (`Except.error`). -/
def parseLoop (patternParts pathParts : List String) (minLength : Nat) :
    List Nat → List (String × String) → Except String (List (String × String))
  | [], params => .ok params
  | i :: is, params =>
    match patternParts[i]? with
    | none => parseLoop patternParts pathParts minLength is params
    | some patternPart =>
      if patternPart == "" then parseLoop patternParts pathParts minLength is params
      else if startsWithColon patternPart then
        let paramName := sliceFrom1 patternPart
        let isOptional := endsWithQm paramName
        let cleanParamName := if isOptional then sliceDropLast paramName else paramName
        match pathParts[i]? with
        | some pathPart =>
          if pathPart == "" then
            if isOptional then parseLoop patternParts pathParts minLength is params
            else .ok []
          else
            match decodeURIComponent pathPart with
            | .error e => .error e
            | .ok v =>
              parseLoop patternParts pathParts minLength is
                (recSet params cleanParamName v)
        | none =>
          if isOptional then parseLoop patternParts pathParts minLength is params
          else .ok []
      else
        if pathParts[i]? != some patternPart && decide (i < minLength) then .ok []
        else parseLoop patternParts pathParts minLength is params

/-- Function `parseURLParams(pattern, pathname)` from src/utils.ts; the
`Except.error` outcome is the `URIError` a `decodeURIComponent` call
raises, which aborts the function. -/
def parseURLParams (pattern pathname : String) : Except String (List (String × String)) :=
  let patternParts := splitSlash pattern
  let pathParts := splitSlash pathname
  let minLength := Nat.min patternParts.length pathParts.length
  let maxLength := Nat.max patternParts.length pathParts.length
  parseLoop patternParts pathParts minLength (List.range maxLength) []

/-! ## Middleware pipeline: `MiddlewarePipeline` (src/pipeline.ts)

`ctx.state` is a JS object; the claims quantify over steps that write
key/value pairs into it.  Values are modeled as `Nat`.  A step is modeled
by how it interacts with its `next` continuation:
  * `writes ws` — performs the property assignments `ws` on `ctx.state`
    and then calls `next()` exactly once, returning its response;
  * `doubleNext` — calls `next()` twice (the middleware-authoring bug the
    spec's `DoubleNextError` is about), returning the second response;
  * `halt` — returns its own response without calling `next()`
    (short-circuit).
-/

abbrev StateRec := List (String × Nat)

inductive StepB where
  | writes (ws : StateRec)
  | doubleNext
  | halt
deriving DecidableEq, Repr

/-- The in-place property assignments a `writes` step performs on the
shared `ctx.state` object. -/
def applyWrites (st : StateRec) (ws : StateRec) : StateRec :=
  ws.foldl (fun s kv => recSet s kv.1 kv.2) st

/-- One activation of `execute`'s shared `next` closure
(src/pipeline.ts lines 90-98): the closure reads and post-increments the
single `index` variable shared by every activation, so a call to `next`
consumes the globally next middleware; once `index` reaches the end,
every further call invokes the terminal handler again.  There is no
double-next guard and no error path in this closure.

Argument `l` is the suffix of the middleware array starting at the shared
`index`; `st` is the current value of the shared `ctx.state` object; `obs`
accumulates the state observed by each terminal-handler invocation.
Returns the remaining suffix (the final shared `index`), the final state,
and the handler observations.  The attached bound (`next` never rewinds
`index`) justifies termination. -/
def runNext : (l : List StepB) → StateRec → List StateRec →
    { r : List StepB × StateRec × List StateRec // r.1.length ≤ l.length }
  | [], st, obs => ⟨([], st, obs ++ [st]), Nat.le_refl 0⟩
  | .writes ws :: rest, st, obs =>
    let r := runNext rest (applyWrites st ws) obs
    ⟨r.val, Nat.le_succ_of_le r.property⟩
  | .doubleNext :: rest, st, obs =>
    let r1 := runNext rest st obs
    let r2 := runNext r1.val.1 r1.val.2.1 r1.val.2.2
    ⟨r2.val, Nat.le_succ_of_le (Nat.le_trans r2.property r1.property)⟩
  | .halt :: rest, st, obs => ⟨(rest, st, obs), Nat.le_succ_of_le (Nat.le_refl _)⟩
termination_by l => l.length
decreasing_by
  · simp [List.length_cons]
  · simp [List.length_cons]
  · exact Nat.lt_succ_of_le r1.property

/-- A `MiddlewarePipeline` object: its private `middlewares` array and its
`initialState` field (src/pipeline.ts lines 48-58).  The middleware type is
a parameter; execution instantiates it with `StepB`. -/
structure MiddlewarePipeline (μ : Type) where
  middlewares : List μ
  initialState : StateRec
deriving DecidableEq, Repr

/-- Pipeline objects live on a heap (addresses are indices), so that
`use`'s non-mutation of its receiver and `execute`'s in-place mutation of
the shared state object are both observable. -/
abbrev Heap (μ : Type) := List (MiddlewarePipeline μ)

def getObj {μ : Type} (h : Heap μ) (i : Nat) : MiddlewarePipeline μ :=
  h.getD i ⟨[], []⟩

/-- Static `MiddlewarePipeline.create(initialState)` /
`new MiddlewarePipeline(initialState)`: allocates a pipeline with no
middlewares and the given initial state.  Returns the new heap and the
address of the new object. -/
def MiddlewarePipeline.create {μ : Type} (h : Heap μ) (s0 : StateRec) : Heap μ × Nat :=
  (h ++ [⟨[], s0⟩], h.length)

/-- Method `use(middleware)` (src/pipeline.ts lines 61-67): allocates
`new MiddlewarePipeline()` — note: with the constructor's default empty
initial state, NOT the receiver's — and sets its `middlewares` to a fresh
copy `[...this.middlewares, middleware]`.  The receiver is only read. -/
def MiddlewarePipeline.use {μ : Type} (h : Heap μ) (self : Nat) (m : μ) : Heap μ × Nat :=
  (h ++ [⟨(getObj h self).middlewares ++ [m], []⟩], h.length)

/-- Method `execute(ctx, handler)` (src/pipeline.ts lines 81-101):
`stateCtx = { ...ctx, state: this.initialState }` makes `ctx.state` alias
the pipeline object's own `initialState` object, so the writes steps
perform during the run persist in the pipeline object afterwards (modeled
by storing the final state back into the object).  Returns the updated
heap and the list of states observed by each terminal-handler invocation. -/
def MiddlewarePipeline.execute (h : Heap StepB) (self : Nat) :
    Heap StepB × List StateRec :=
  let p := getObj h self
  let r := runNext p.middlewares p.initialState []
  (h.set self ⟨p.middlewares, r.val.2.1⟩, r.val.2.2)

/-- Method `Imphnen.executeMiddlewareChain(middlewares, handler, ctx)`
(src/app.ts lines 376-394): its `next` closure is identical in structure
to `MiddlewarePipeline.execute`'s (shared post-incremented `index`, no
double-next guard), so it is interpreted by the same `runNext`; the
observable here is the number of terminal-handler invocations. -/
def executeMiddlewareChain (middlewares : List StepB) : Nat :=
  (runNext middlewares [] []).val.2.2.length

/-- Function `dispatch(i)` from `combineMiddleware` (src/utils.ts lines 262-279),
with the shared `index` threaded explicitly: it throws
`'next() called multiple times'` when `i <= index`, otherwise records
`index = i`, and runs `middlewares[i]` with `() => dispatch(i + 1)` as its
`next` (an out-of-range `i` invokes the outer `next`).  Returns the shared
index after the call, or the thrown error message. -/
def combineDispatch (middlewares : List StepB) (i : Nat) (index : Nat) :
    Except String Nat :=
  if i ≤ index then .error "next() called multiple times"
  else
    match hm : middlewares[i]? with
    | none => .ok i
    | some b =>
      match b with
      | .writes _ => combineDispatch middlewares (i + 1) i
      | .doubleNext =>
        match combineDispatch middlewares (i + 1) i with
        | .error e => .error e
        | .ok idx2 => combineDispatch middlewares (i + 1) idx2
      | .halt => .ok i
termination_by middlewares.length - i
decreasing_by
  all_goals
    have hi : i < middlewares.length := by
      by_contra hge
      rw [List.getElem?_eq_none (by omega)] at hm
      exact absurd hm (by simp)
    omega

/-- Function `combineMiddleware(...middlewares)` (src/utils.ts lines 257-281): the
composed middleware initializes the shared `index` to `0` and runs
`dispatch(0)`. -/
def combineMiddleware (middlewares : List StepB) : Except String Nat :=
  combineDispatch middlewares 0 0

/-! ## Responses and the dispatcher's error handling (src/app.ts) -/

/-- The parts of a `Response` the claims are about: status, body text, and
the explicitly set `content-type` header (if any). -/
structure Response where
  status : Nat
  body : String
  contentType : Option String
deriving DecidableEq, Repr

/-- A thrown JS value: an `Error` instance carrying a message, or any
other value (a string, a number, ...). -/
inductive JsError where
  | error (message : String)
  | other
deriving DecidableEq, Repr

/-- Reads `error.message` of an `instanceof Error` value (other values have no
message; the source only reads it under an `instanceof` guard). -/
def JsError.message : JsError → String
  | .error m => m
  | .other => ""

/-- Models JS `s.includes(sub)`: `charsStartWith sub l` is "`l` begins
with `sub`", and `charsContain` scans every suffix. -/
def charsStartWith : List Char → List Char → Bool
  | [], _ => true
  | _ :: _, [] => false
  | a :: as, b :: bs => a == b && charsStartWith as bs

def charsContain : List Char → List Char → Bool
  | [], sub => sub.isEmpty
  | a :: t, sub => charsStartWith sub (a :: t) || charsContain t sub

def strIncludes (s sub : String) : Bool := charsContain s.data sub.data

/-- The catch clauses of `handleRequest` (src/app.ts lines 321-333) and
`handlePipelineRoute` (lines 362-373) test
`error instanceof Error && error.message.includes('File upload error')`. -/
def isUploadError (e : JsError) : Bool :=
  match e with
  | .error msg => strIncludes msg "File upload error"
  | .other => false

/-- Models `JSON.stringify` escaping of one string character (the common escapes;
the claims evaluate it only on messages without special characters). -/
def jsonEscapeChar (c : Char) : List Char :=
  if c == '"' then ['\\', '"']
  else if c == '\\' then ['\\', '\\']
  else if c == '\n' then ['\\', 'n']
  else if c == '\t' then ['\\', 't']
  else if c == '\r' then ['\\', 'r']
  else [c]

/-- Models `JSON.stringify({ error: msg })`. -/
def jsonStringifyError (msg : String) : String :=
  "\x7b\"error\":\"" ++ String.mk (msg.data.map jsonEscapeChar).flatten ++ "\"\x7d"

/-- The catch clause shared verbatim by `handleRequest` and
`handlePipelineRoute` (src/app.ts lines 321-333 and 362-373): an error
whose message includes `'File upload error'` is surfaced as a 400 with the
JSON payload `{ error: error.message }`; every other failure is surfaced
as the fixed response `'Internal Server Error'` with status 500. -/
def errorResponse (error : JsError) : Response :=
  if isUploadError error then
    ⟨400, jsonStringifyError error.message, some "application/json"⟩
  else
    ⟨500, "Internal Server Error", none⟩

/-! ## Multipart body parsing: `parseBody` (src/utils.ts lines 88-135) -/

/-- The upload limits from `ImphnenOptions['uploads']`. -/
structure UploadOptions where
  maxFileSize : Option Nat := none
  allowedTypes : Option (List String) := none
  maxFiles : Option Nat := none
deriving DecidableEq, Repr

/-- A `File` entry of the parsed form data (its `name`, `type`, `size`). -/
structure FilePart where
  name : String
  mime : String
  size : Nat
deriving DecidableEq, Repr

/-- One entry of `formData.entries()`: a `File` or a plain field. -/
inductive FormEntry where
  | file (f : FilePart)
  | field (key value : String)
deriving DecidableEq, Repr

/-- The `for (const [key, value] of formData.entries())` loop of the
multipart branch: each file is validated against `maxFileSize` (a `0`
limit is falsy in JS and skips the check) and `allowedTypes` (exact string
membership) as it is encountered; fields are collected by property
assignment.  A failed check throws `new Error(...)` with the source's
message. -/
def entriesLoop (options : Option UploadOptions) :
    List FormEntry → List (String × String) → List FilePart →
    Except String (List (String × String) × List FilePart)
  | [], fields, files => .ok (fields, files)
  | .file f :: rest, fields, files =>
    match options with
    | some o =>
      if (match o.maxFileSize with
          | some maxSize => maxSize != 0 && decide (f.size > maxSize)
          | none => false) then
        .error ("File " ++ f.name ++ " exceeds maximum size of "
          ++ toString (o.maxFileSize.getD 0) ++ " bytes")
      else if (match o.allowedTypes with
          | some types => !types.contains f.mime
          | none => false) then
        .error ("File type " ++ f.mime ++ " is not allowed")
      else entriesLoop options rest fields (files ++ [f])
    | none => entriesLoop options rest fields (files ++ [f])
  | .field key value :: rest, fields, files =>
    entriesLoop options rest (recSet fields key value) files

/-- The body of the multipart `try` block after the entries loop: the
`maxFiles` count check (again with JS falsiness of `0`). -/
def multipartTry (options : Option UploadOptions)
    (formDataResult : Except JsError (List FormEntry)) :
    Except JsError (List (String × String) × List FilePart) :=
  match formDataResult with
  | .error e => .error e
  | .ok entries =>
    match entriesLoop options entries [] [] with
    | .error m => .error (.error m)
    | .ok (fields, files) =>
      if (match options with
          | some o =>
            (match o.maxFiles with
             | some maxFiles => maxFiles != 0 && decide (files.length > maxFiles)
             | none => false)
          | none => false) then
        .error (.error ("Too many files. Maximum allowed: "
          ++ toString ((options.bind UploadOptions.maxFiles).getD 0)))
      else .ok (fields, files)

/-- The multipart branch of `parseBody` (src/utils.ts lines 88-135):
`await request.formData()` may itself fail with an arbitrary thrown value;
the surrounding catch wraps EVERY failure as
`new Error('File upload error: ' + (error instanceof Error ?
error.message : 'Unknown error'))`. -/
def parseBodyMultipart (options : Option UploadOptions)
    (formDataResult : Except JsError (List FormEntry)) :
    Except JsError (List (String × String) × List FilePart) :=
  match multipartTry options formDataResult with
  | .error e =>
    .error (.error ("File upload error: "
      ++ (match e with
          | .error m => m
          | .other => "Unknown error")))
  | .ok r => .ok r

/-! ## Dispatcher: `handleRequest` (src/app.ts lines 270-334) -/

inductive Method
  | GET | POST | PUT | DELETE | PATCH | OPTIONS
deriving DecidableEq, Repr

/-- What the route-scanning part of the dispatcher needs of a registered
route: its method and its path pattern (in registration order in the
table). -/
structure RouteEntry where
  method : Method
  path : String
deriving DecidableEq, Repr

/-- The predicate of both `.find(...)` scans:
`r.method === method && matchRoute(r.path, pathname)`. -/
def routeMatches (method : Method) (pathname : String) (r : RouteEntry) : Bool :=
  r.method == method && matchRoute r.path pathname

/-- Index of the first element satisfying `p` (JS `Array.prototype.find`
returns the first match in array order; the index identifies it). -/
def findFirstIdx {α : Type} (p : α → Bool) : List α → Option Nat
  | [] => none
  | x :: xs => if p x then some 0 else (findFirstIdx p xs).map (fun n => n + 1)

/-- The dispatcher's routing decision. -/
inductive Dispatch where
  | corsPreflight
  | pipelineRoute (i : Nat)
  | plainRoute (i : Nat)
  | notFound
deriving DecidableEq, Repr

/-- The routing part of `handleRequest` (src/app.ts lines 270-298): CORS
preflight first (only when CORS is enabled and the method is OPTIONS),
then the first matching pipeline route, then the first matching plain
route, else not-found. -/
def handleRequestDispatch (corsEnabled : Bool)
    (pipelineRoutes routes : List RouteEntry)
    (method : Method) (pathname : String) : Dispatch :=
  if corsEnabled && method == Method.OPTIONS then .corsPreflight
  else
    match findFirstIdx (routeMatches method pathname) pipelineRoutes with
    | some i => .pipelineRoute i
    | none =>
      match findFirstIdx (routeMatches method pathname) routes with
      | some i => .plainRoute i
      | none => .notFound

/-- Source `new Response('Not Found', { status: 404 })` (src/app.ts line 297). -/
def notFoundResponse : Response := ⟨404, "Not Found", none⟩

/-! ## Specification predicates used by the dispatcher claims -/

/-- Element `l[i]` exists, satisfies `p`, and no earlier element does. -/
def FirstMatchAt {α : Type} (p : α → Bool) (l : List α) (i : Nat) : Prop :=
  (∃ x, l[i]? = some x ∧ p x = true) ∧
    ∀ j, j < i → ∀ y, l[j]? = some y → p y = false

/-- No element of `l` satisfies `p`. -/
def NoMatch {α : Type} (p : α → Bool) (l : List α) : Prop :=
  ∀ x ∈ l, p x = false

/-! ## Helper lemmas -/

lemma runNext_nil (st : StateRec) (obs : List StateRec) :
    (runNext [] st obs).val = ([], st, obs ++ [st]) := by
  simp [runNext]

lemma runNext_writes_cons (ws : StateRec) (rest : List StepB) (st : StateRec)
    (obs : List StateRec) :
    (runNext (.writes ws :: rest) st obs).val = (runNext rest (applyWrites st ws) obs).val := by
  simp [runNext]

lemma runNext_double_cons (rest : List StepB) (st : StateRec) (obs : List StateRec) :
    (runNext (.doubleNext :: rest) st obs).val =
      (runNext (runNext rest st obs).val.1 (runNext rest st obs).val.2.1
        (runNext rest st obs).val.2.2).val := by
  simp [runNext]

lemma runNext_halt_cons (rest : List StepB) (st : StateRec) (obs : List StateRec) :
    (runNext (.halt :: rest) st obs).val = (rest, st, obs) := by
  simp [runNext]

/-- A chain of pure write-then-next steps runs each step once, left to
right, accumulating the writes over the shared state, and then invokes the
terminal handler exactly once on the accumulated state. -/
lemma runNext_writes_chain (wss : List StateRec) (st : StateRec) (obs : List StateRec) :
    (runNext (wss.map StepB.writes) st obs).val =
      ([], wss.foldl applyWrites st, obs ++ [wss.foldl applyWrites st]) := by
  induction wss generalizing st obs with
  | nil => simp [runNext_nil]
  | cons w ws ih =>
    rw [List.map_cons, runNext_writes_cons, ih]
    simp

lemma recGet_cons {α : Type} (kv : String × α) (l : List (String × α)) (k : String) :
    recGet (kv :: l) k = if kv.1 == k then some kv.2 else recGet l k := by
  by_cases h : kv.1 == k
  · simp [recGet, List.find?, h]
  · simp only [Bool.not_eq_true] at h
    simp [recGet, List.find?, h]

lemma recGet_recSet {α : Type} (r : List (String × α)) (k : String) (v : α) (q : String) :
    recGet (recSet r k v) q = if q = k then some v else recGet r q := by
  induction r with
  | nil =>
    by_cases h : q = k
    · simp [recSet, recGet_cons, recGet, h]
    · have h2 : ¬k = q := fun he => h he.symm
      simp [recSet, recGet_cons, recGet, h, h2]
  | cons kv rest ih =>
    by_cases h1 : kv.1 == k
    · have h1' : kv.1 = k := by simpa using h1
      by_cases h : q = k
      · simp [recSet, h1, recGet_cons, h]
      · have h2 : ¬k = q := fun he => h he.symm
        simp [recSet, h1, recGet_cons, h, h2, h1']
    · by_cases h2 : kv.1 == q
      · have hqk : ¬(q = k) := by
          intro he
          rw [he] at h2
          exact h1 h2
        simp [recSet, h1, recGet_cons, h2, hqk]
      · simp [recSet, h1, recGet_cons, h2, ih]

lemma memOfGet {α : Type} {l : List α} {n : Nat} {a : α} (h : l[n]? = some a) : a ∈ l := by
  induction l generalizing n with
  | nil => simp at h
  | cons x xs ih =>
    cases n with
    | zero => simp at h; simp [h]
    | succ m =>
      rw [List.getElem?_cons_succ] at h
      exact List.mem_cons_of_mem x (ih h)

lemma charsStartWith_append (m r : List Char) : charsStartWith m (m ++ r) = true := by
  induction m with
  | nil => rfl
  | cons a as ih => simp [charsStartWith, ih]

lemma charsContain_of_startsWith {sub l : List Char} (h : charsStartWith sub l = true) :
    charsContain l sub = true := by
  cases l with
  | nil =>
    cases sub with
    | nil => rfl
    | cons a as => simp [charsStartWith] at h
  | cons a t => simp [charsContain, h]

/-- Any message built by the multipart catch clause contains the literal
substring the dispatcher's catch clauses test for. -/
lemma isUploadError_wrap (msg : String) :
    isUploadError (.error ("File upload error: " ++ msg)) = true := by
  have hsplit : ("File upload error: " ++ msg) = "File upload error" ++ (": " ++ msg) := by
    rw [← String.append_assoc]
    rfl
  show strIncludes ("File upload error: " ++ msg) "File upload error" = true
  rw [hsplit]
  show charsContain ("File upload error" ++ (": " ++ msg)).data "File upload error".data = true
  rw [String.data_append]
  exact charsContain_of_startsWith (charsStartWith_append _ _)

/-- Every failure of the multipart branch is the wrapped form produced by
its catch clause. -/
lemma parseBodyMultipart_error_shape (options : Option UploadOptions)
    (fd : Except JsError (List FormEntry)) (e : JsError)
    (h : parseBodyMultipart options fd = .error e) :
    ∃ m, e = .error ("File upload error: " ++ m) := by
  unfold parseBodyMultipart at h
  cases hmt : multipartTry options fd with
  | error e0 =>
    rw [hmt] at h
    exact ⟨_, (Except.error.inj h).symm⟩
  | ok r =>
    rw [hmt] at h
    cases h

lemma string_beq_empty_false {part : String} (h : startsWithColon part = true) :
    (part == "") = false := by
  have hne : part ≠ "" := by
    intro he
    rw [he] at h
    simp [startsWithColon] at h
  exact beq_eq_false_iff_ne.mpr hne

lemma endsWithQm_sliceFrom1 {part : String} (hc : startsWithColon part = true)
    (hq : endsWithQm part = false) : endsWithQm (sliceFrom1 part) = false := by
  obtain ⟨c, t, hd⟩ : ∃ c t, part.data = c :: t := by
    unfold startsWithColon at hc
    cases hdata : part.data with
    | nil => rw [hdata] at hc; cases hc
    | cons c t => exact ⟨c, t, rfl⟩
  unfold endsWithQm at hq
  rw [hd] at hq
  unfold sliceFrom1
  rw [hd]
  cases t with
  | nil => simp [endsWithQm]
  | cons x t2 =>
    rw [List.getLast?_cons_cons] at hq
    unfold endsWithQm
    simpa using hq

/-- A required parameter part whose path part does not exist fails the
`every` scan of `matchRoute`. -/
lemma partsMatch_required_absent (pp : List String) (i : Nat) (part : String)
    (qq : List String) (hget : pp[i]? = some part) (hc : startsWithColon part = true)
    (hq : endsWithQm part = false) (hlen : qq.length ≤ i) :
    partsMatch pp qq = false := by
  induction pp generalizing i qq with
  | nil => simp at hget
  | cons p ps ih =>
    cases i with
    | zero =>
      rw [List.getElem?_cons_zero] at hget
      have hp : p = part := by simpa using hget
      subst hp
      have hqq : qq = [] := List.length_eq_zero.mp (Nat.le_zero.mp hlen)
      subst hqq
      simp [partsMatch, hc, hq]
    | succ n =>
      rw [List.getElem?_cons_succ] at hget
      cases qq with
      | nil =>
        have hrec := ih n [] hget (by simp)
        simp [partsMatch, hrec]
      | cons q qs =>
        have hlen2 : qs.length ≤ n := by simpa using hlen
        have hrec := ih n qs hget hlen2
        simp [partsMatch, hrec]

/-- If some index in the iteration order names a required parameter whose
path part does not exist, the `parseURLParams` loop returns the empty map
(at that index or from an earlier abort) — unless an earlier captured
segment fails to percent-decode, in which case the thrown `URIError`
propagates instead. -/
lemma parseLoop_required_absent (js : List Nat) (pp qq : List String) (minL : Nat)
    (params : List (String × String)) (i : Nat) (part : String) (hmem : i ∈ js)
    (hget : pp[i]? = some part) (hc : startsWithColon part = true)
    (hq : endsWithQm part = false) (habs : qq[i]? = none) :
    parseLoop pp qq minL js params = .ok [] ∨
      ∃ e, parseLoop pp qq minL js params = .error e := by
  induction js generalizing params with
  | nil => simp at hmem
  | cons j rest ih =>
    rcases List.mem_cons.mp hmem with rfl | hmem2
    · left
      rw [parseLoop, hget]
      simp [string_beq_empty_false hc, hc, habs, endsWithQm_sliceFrom1 hc hq]
    · rw [parseLoop]
      cases hpp : pp[j]? with
      | none => exact ih _ hmem2
      | some pat =>
        repeat'
          first
            | exact Or.inl rfl
            | exact Or.inr ⟨_, rfl⟩
            | exact ih _ hmem2
            | split
            | dsimp only

/-- The `parseURLParams` loop can fail only through `decodeURIComponent`:
when every path segment percent-decodes, every run of the loop succeeds. -/
lemma parseLoop_ok_of_decode (pp qq : List String) (minL : Nat)
    (hdec : ∀ seg ∈ qq, ∃ v, decodeURIComponent seg = .ok v) (js : List Nat) :
    ∀ params : List (String × String), ∃ r, parseLoop pp qq minL js params = .ok r := by
  induction js with
  | nil => exact fun params => ⟨params, rfl⟩
  | cons j rest ih =>
    intro params
    rw [parseLoop]
    cases hpp : pp[j]? with
    | none => exact ih params
    | some pat =>
      try dsimp only
      split
      · exact ih params
      · split
        · try dsimp only
          cases hqq : qq[j]? with
          | some pathPart =>
            try dsimp only
            split
            · split
              · exact ih params
              · exact ⟨[], rfl⟩
            · cases hdd : decodeURIComponent pathPart with
              | error e =>
                obtain ⟨v, hv⟩ := hdec pathPart (memOfGet hqq)
                rw [hv] at hdd
                cases hdd
              | ok v => exact ih _
          | none =>
            try dsimp only
            split
            · exact ih params
            · exact ⟨[], rfl⟩
        · split
          · exact ⟨[], rfl⟩
          · exact ih params

lemma findFirstIdx_none_iff {α : Type} (p : α → Bool) (l : List α) :
    findFirstIdx p l = none ↔ ∀ x ∈ l, p x = false := by
  induction l with
  | nil => simp [findFirstIdx]
  | cons x xs ih =>
    by_cases hx : p x
    · simp [findFirstIdx, hx]
    · simp only [Bool.not_eq_true] at hx
      simp [findFirstIdx, hx, ih]

lemma findFirstIdx_some_iff {α : Type} (p : α → Bool) (l : List α) (i : Nat) :
    findFirstIdx p l = some i ↔ FirstMatchAt p l i := by
  induction l generalizing i with
  | nil => simp [findFirstIdx, FirstMatchAt]
  | cons x xs ih =>
    by_cases hx : p x = true
    · constructor
      · intro h
        simp [findFirstIdx, hx] at h
        subst h
        exact ⟨⟨x, by simp, hx⟩, fun j hj => absurd hj (Nat.not_lt_zero j)⟩
      · rintro ⟨⟨y, hy, hpy⟩, hmin⟩
        cases i with
        | zero => simp [findFirstIdx, hx]
        | succ n =>
          have h0 := hmin 0 (Nat.succ_pos n) x (by simp)
          rw [hx] at h0
          cases h0
    · have hx' : p x = false := by simpa using hx
      constructor
      · intro h
        simp only [findFirstIdx, hx', Bool.false_eq_true, if_false,
          Option.map_eq_some'] at h
        obtain ⟨n, hn, hi⟩ := h
        subst hi
        obtain ⟨⟨y, hy, hpy⟩, hmin⟩ := (ih n).mp hn
        refine ⟨⟨y, by simpa using hy, hpy⟩, ?_⟩
        intro j hj z hz
        cases j with
        | zero =>
          rw [List.getElem?_cons_zero] at hz
          have : x = z := by simpa using hz
          rw [← this]
          exact hx'
        | succ m =>
          rw [List.getElem?_cons_succ] at hz
          exact hmin m (by omega) z hz
      · rintro ⟨⟨y, hy, hpy⟩, hmin⟩
        cases i with
        | zero =>
          rw [List.getElem?_cons_zero] at hy
          have : x = y := by simpa using hy
          rw [this, hpy] at hx'
          cases hx'
        | succ n =>
          have hxs : findFirstIdx p xs = some n := by
            refine (ih n).mpr ⟨⟨y, by simpa using hy, hpy⟩, ?_⟩
            intro j hj z hz
            exact hmin (j + 1) (by omega) z (by simpa using hz)
          simp [findFirstIdx, hx', hxs]

lemma firstMatchAt_unique {α : Type} {p : α → Bool} {l : List α} {i j : Nat}
    (hi : FirstMatchAt p l i) (hj : FirstMatchAt p l j) : i = j := by
  obtain ⟨⟨x, hx, hpx⟩, hmini⟩ := hi
  obtain ⟨⟨y, hy, hpy⟩, hminj⟩ := hj
  rcases Nat.lt_trichotomy i j with h | h | h
  · rw [hminj i h x hx] at hpx
    cases hpx
  · exact h
  · rw [hmini j h y hy] at hpy
    cases hpy

lemma firstMatchAt_not_noMatch {α : Type} {p : α → Bool} {l : List α} {i : Nat}
    (hi : FirstMatchAt p l i) (hno : NoMatch p l) : False := by
  obtain ⟨⟨x, hx, hpx⟩, _⟩ := hi
  rw [hno x (memOfGet hx)] at hpx
  cases hpx

/-! ## Claim theorems -/

/-- C1: the claim says a second `next()` call within one step invocation
fails loudly with a double-next error and never re-invokes the terminal
handler.  The code does neither: `MiddlewarePipeline.execute` and
`executeMiddlewareChain` raise nothing and silently invoke the terminal
handler a second time (two handler invocations for a single-step chain
whose step calls `next()` twice), while `combineMiddleware`'s guard
initializes its shared index to 0, so `dispatch(0)` already satisfies
`i <= index` and the composed middleware throws
`'next() called multiple times'` on every invocation, for every middleware
list, even when no step calls `next` twice. -/
theorem c1_double_next_not_failed_loudly :
    (MiddlewarePipeline.execute [⟨[.doubleNext], []⟩] 0).2.length = 2 ∧
    executeMiddlewareChain [.doubleNext] = 2 ∧
    ∀ middlewares : List StepB,
      combineMiddleware middlewares = .error "next() called multiple times" := by
  refine ⟨?_, ?_, ?_⟩
  · show (runNext [StepB.doubleNext] [] []).val.2.2.length = 2
    rw [runNext_double_cons, runNext_nil]
    show (runNext [] [] [[]]).val.2.2.length = 2
    rw [runNext_nil]
    rfl
  · show (runNext [StepB.doubleNext] [] []).val.2.2.length = 2
    rw [runNext_double_cons, runNext_nil]
    show (runNext [] [] [[]]).val.2.2.length = 2
    rw [runNext_nil]
    rfl
  · intro middlewares
    rw [combineMiddleware, combineDispatch]
    simp

/-- C2: the claim says `base.use(m)` shares the receiver's initial state,
so executing it begins with the accumulated state `s0`.  The code drops the
initial state: `use` allocates `new MiddlewarePipeline()` without passing
`this.initialState`, so the derived pipeline's initial state is empty and
its execution begins with the empty state — here, `create({a: 1})` then
`use` of a step writing `b := 2` yields a handler observation of
`{b: 2}` with no key `a`, though the base object still holds `{a: 1}`. -/
theorem c2_use_drops_initial_state :
    let c : Heap StepB × Nat := MiddlewarePipeline.create ([] : Heap StepB) [("a", 1)]
    let u := MiddlewarePipeline.use c.1 c.2 (.writes [("b", 2)])
    (getObj u.1 c.2).initialState = [("a", 1)] ∧
    (getObj u.1 u.2).initialState = [] ∧
    (MiddlewarePipeline.execute u.1 u.2).2 = [[("b", 2)]] ∧
    recGet [("b", 2)] "a" = none := by
  intro c u
  refine ⟨rfl, rfl, ?_, rfl⟩
  show (runNext [StepB.writes [("b", 2)]] [] []).val.2.2 = [[("b", 2)]]
  rw [runNext_writes_cons]
  show (runNext [] [("b", 2)] []).val.2.2 = [[("b", 2)]]
  rw [runNext_nil]
  rfl

/-- C3: the claim says state written during one execution of a pipeline is
never visible at the start of a second execution of the same pipeline.
The code shares the state object: `execute` sets
`stateCtx.state = this.initialState` without copying, so a step's write
`x := 1` persists in the pipeline object, and the second execution starts
from (and its handler observes) the state `{x: 1}` left by the first. -/
theorem c3_state_persists_across_executions :
    let h0 : Heap StepB := [⟨[.writes [("x", 1)]], []⟩]
    let e1 := MiddlewarePipeline.execute h0 0
    e1.2 = [[("x", 1)]] ∧
    (getObj e1.1 0).initialState = [("x", 1)] ∧
    recGet (getObj e1.1 0).initialState "x" = some 1 ∧
    (MiddlewarePipeline.execute e1.1 0).2 = [[("x", 1)]] := by
  intro h0 e1
  have hrun : (runNext [StepB.writes [("x", 1)]] [] []).val = ([], [("x", 1)], [[("x", 1)]]) := by
    rw [runNext_writes_cons]
    show (runNext [] [("x", 1)] []).val = ([], [("x", 1)], [[("x", 1)]])
    rw [runNext_nil]
    rfl
  have he1 : e1 = ([⟨[StepB.writes [("x", 1)]], [("x", 1)]⟩], [[("x", 1)]]) := by
    show (h0.set 0 ⟨[StepB.writes [("x", 1)]],
        (runNext [StepB.writes [("x", 1)]] [] []).val.2.1⟩,
      (runNext [StepB.writes [("x", 1)]] [] []).val.2.2) = _
    rw [hrun]
    rfl
  have hrun2 : (runNext [StepB.writes [("x", 1)]] [("x", 1)] []).val =
      ([], [("x", 1)], [[("x", 1)]]) := by
    rw [runNext_writes_cons]
    show (runNext [] [("x", 1)] []).val = ([], [("x", 1)], [[("x", 1)]])
    rw [runNext_nil]
    rfl
  refine ⟨?_, ?_, ?_, ?_⟩
  · rw [he1]
  · rw [he1]
    rfl
  · rw [he1]
    rfl
  · rw [he1]
    show (runNext [StepB.writes [("x", 1)]] [("x", 1)] []).val.2.2 = [[("x", 1)]]
    rw [hrun2]

/-- C4 (counterexample): the claim says a pattern with a required
parameter matches only when the corresponding path segment exists AND is
non-empty.  For pattern `/a/:b` and path `/a/` the corresponding path
segment exists but is the empty string, and `matchRoute` nevertheless
returns true (the scan only checks the segment is not `undefined`). -/
theorem c4_counterexample_empty_segment :
    matchRoute "/a/:b" "/a/" = true ∧
    (splitSlash "/a/")[2]? = some "" ∧
    (splitSlash "/a/:b")[2]? = some ":b" ∧
    startsWithColon ":b" = true ∧
    endsWithQm ":b" = false := by
  decide

/-- C4 (amended): for every pattern with a required parameter segment at
index `i` and every path whose segment list has no entry at `i` (the
segment is absent), `matchRoute` returns false, and `parseURLParams`
either returns the empty parameter map or propagates the `URIError` a
`decodeURIComponent` call raised on an earlier, present segment; when
every present segment percent-decodes, it returns the empty map.  (A
present-but-empty segment, as produced by a trailing slash, still matches
— see the counterexample; and the `URIError` path is real — see the last
conjunct, where decoding `%ZZ` at the first parameter aborts the
extraction before the absent-segment fallback is reached.) -/
theorem c4_required_param_absent (pattern pathname : String) (i : Nat) (part : String)
    (hpart : (splitSlash pattern)[i]? = some part)
    (hc : startsWithColon part = true)
    (hq : endsWithQm part = false)
    (habs : (splitSlash pathname).length ≤ i) :
    matchRoute pattern pathname = false ∧
    (parseURLParams pattern pathname = .ok [] ∨
      ∃ e, parseURLParams pattern pathname = .error e) ∧
    ((∀ seg ∈ splitSlash pathname, ∃ v, decodeURIComponent seg = .ok v) →
      parseURLParams pattern pathname = .ok []) ∧
    parseURLParams "/:p/:q" "/%ZZ" = .error "URI malformed" := by
  have hi : i < (splitSlash pattern).length := by
    by_contra hge
    rw [List.getElem?_eq_none (by omega)] at hpart
    cases hpart
  have hmem : i ∈ List.range (Nat.max (splitSlash pattern).length
      (splitSlash pathname).length) := by
    apply List.mem_range.mpr
    exact lt_of_lt_of_le hi (Nat.le_max_left _ _)
  have hdisj : parseLoop (splitSlash pattern) (splitSlash pathname)
      (Nat.min (splitSlash pattern).length (splitSlash pathname).length)
      (List.range (Nat.max (splitSlash pattern).length (splitSlash pathname).length)) [] =
        .ok [] ∨
      ∃ e, parseLoop (splitSlash pattern) (splitSlash pathname)
        (Nat.min (splitSlash pattern).length (splitSlash pathname).length)
        (List.range (Nat.max (splitSlash pattern).length (splitSlash pathname).length)) [] =
          .error e :=
    parseLoop_required_absent _ _ _ _ _ i part hmem hpart hc hq
      (List.getElem?_eq_none habs)
  refine ⟨?_, hdisj, ?_, rfl⟩
  · show (if (splitSlash pathname).length < minPatternLength (splitSlash pattern) then false
      else if (splitSlash pathname).length > (splitSlash pattern).length then false
      else partsMatch (splitSlash pattern) (splitSlash pathname)) = false
    split
    · rfl
    · split
      · rfl
      · exact partsMatch_required_absent _ i part _ hpart hc hq habs
  · intro hdec
    obtain ⟨r, hr⟩ := parseLoop_ok_of_decode (splitSlash pattern) (splitSlash pathname)
      (Nat.min (splitSlash pattern).length (splitSlash pathname).length) hdec
      (List.range (Nat.max (splitSlash pattern).length (splitSlash pathname).length)) []
    rcases hdisj with hok | ⟨e, he⟩
    · exact hok
    · show parseLoop (splitSlash pattern) (splitSlash pathname)
        (Nat.min (splitSlash pattern).length (splitSlash pathname).length)
        (List.range (Nat.max (splitSlash pattern).length (splitSlash pathname).length)) [] =
          .ok []
      rw [hr] at he
      cases he

/-- C4 (witness): for pattern `/a/:b` and path `/a` the required segment
at index 2 is absent: the match fails, and since both present segments of
`/a` are escape-free, the parameter map is empty. -/
theorem c4_witness :
    matchRoute "/a/:b" "/a" = false ∧ parseURLParams "/a/:b" "/a" = .ok [] := by
  have h := c4_required_param_absent "/a/:b" "/a" 2 ":b" (by decide) (by decide)
    (by decide) (by decide)
  refine ⟨h.1, h.2.2.1 ?_⟩
  intro seg hseg
  have hseg2 : seg = "" ∨ seg = "a" := by
    simpa [splitSlash, splitSlashAux] using hseg
  rcases hseg2 with rfl | rfl
  · exact ⟨"", rfl⟩
  · exact ⟨"a", rfl⟩

/-- C5: for every request that is not a CORS preflight, the dispatcher
selects the earliest-registered matching pipeline route; only if no
pipeline route matches does it select the earliest-registered matching
plain route; and when neither table contains a match it resolves to the
not-found outcome, whose response is the literal 404 `'Not Found'`. -/
theorem c5_dispatch_order (corsEnabled : Bool) (pipelineRoutes routes : List RouteEntry)
    (method : Method) (pathname : String)
    (hcors : ¬(corsEnabled = true ∧ method = Method.OPTIONS)) :
    (∀ i, handleRequestDispatch corsEnabled pipelineRoutes routes method pathname =
        Dispatch.pipelineRoute i ↔
          FirstMatchAt (routeMatches method pathname) pipelineRoutes i) ∧
    (∀ i, handleRequestDispatch corsEnabled pipelineRoutes routes method pathname =
        Dispatch.plainRoute i ↔
          (NoMatch (routeMatches method pathname) pipelineRoutes ∧
            FirstMatchAt (routeMatches method pathname) routes i)) ∧
    (handleRequestDispatch corsEnabled pipelineRoutes routes method pathname =
        Dispatch.notFound ↔
          (NoMatch (routeMatches method pathname) pipelineRoutes ∧
            NoMatch (routeMatches method pathname) routes)) ∧
    notFoundResponse = ⟨404, "Not Found", none⟩ := by
  have hc : (corsEnabled && method == Method.OPTIONS) = false := by
    cases corsEnabled with
    | false => rfl
    | true =>
      have hm : method ≠ Method.OPTIONS := fun hm2 => hcors ⟨rfl, hm2⟩
      simp [hm]
  unfold handleRequestDispatch
  rw [hc]
  simp only [Bool.false_eq_true, if_false]
  cases hfp : findFirstIdx (routeMatches method pathname) pipelineRoutes with
  | some i0 =>
    have hfirst := (findFirstIdx_some_iff _ _ i0).mp hfp
    refine ⟨?_, ?_, ?_, rfl⟩
    · intro i
      constructor
      · intro hcase
        have hii : i0 = i := by
          simpa using hcase
        subst hii
        exact hfirst
      · intro hfm
        rw [firstMatchAt_unique hfirst hfm]
    · intro i
      constructor
      · intro hcase
        cases hcase
      · rintro ⟨hno, _⟩
        exact (firstMatchAt_not_noMatch hfirst hno).elim
    · constructor
      · intro hcase
        cases hcase
      · rintro ⟨hno, _⟩
        exact (firstMatchAt_not_noMatch hfirst hno).elim
  | none =>
    have hnop : NoMatch (routeMatches method pathname) pipelineRoutes :=
      (findFirstIdx_none_iff _ _).mp hfp
    cases hfr : findFirstIdx (routeMatches method pathname) routes with
    | some i0 =>
      have hfirst := (findFirstIdx_some_iff _ _ i0).mp hfr
      refine ⟨?_, ?_, ?_, rfl⟩
      · intro i
        constructor
        · intro hcase
          cases hcase
        · intro hfm
          exact (firstMatchAt_not_noMatch hfm hnop).elim
      · intro i
        constructor
        · intro hcase
          have hii : i0 = i := by
            simpa using hcase
          subst hii
          exact ⟨hnop, hfirst⟩
        · rintro ⟨_, hfm⟩
          rw [firstMatchAt_unique hfirst hfm]
      · constructor
        · intro hcase
          cases hcase
        · rintro ⟨_, hno⟩
          exact (firstMatchAt_not_noMatch hfirst hno).elim
    | none =>
      have hnor : NoMatch (routeMatches method pathname) routes :=
        (findFirstIdx_none_iff _ _).mp hfr
      refine ⟨?_, ?_, ?_, rfl⟩
      · intro i
        constructor
        · intro hcase
          cases hcase
        · intro hfm
          exact (firstMatchAt_not_noMatch hfm hnop).elim
      · intro i
        constructor
        · intro hcase
          cases hcase
        · rintro ⟨_, hfm⟩
          exact (firstMatchAt_not_noMatch hfm hnor).elim
      · constructor
        · intro _
          exact ⟨hnop, hnor⟩
        · intro _
          rfl

/-- C5 (witness): with one non-matching pipeline route and one matching
plain route, the dispatcher resolves to the first plain route, and the
not-found response carries status 404. -/
theorem c5_witness :
    handleRequestDispatch false [⟨Method.GET, "/p"⟩] [⟨Method.GET, "/a"⟩]
      Method.GET "/a" = Dispatch.plainRoute 0 ∧
    notFoundResponse.status = 404 := by
  have h := c5_dispatch_order false [⟨Method.GET, "/p"⟩] [⟨Method.GET, "/a"⟩]
    Method.GET "/a" (by simp)
  refine ⟨(h.2.1 0).mpr ⟨?_, ⟨⟨Method.GET, "/a"⟩, rfl, by decide⟩,
    fun j hj y hy => absurd hj (Nat.not_lt_zero j)⟩, rfl⟩
  intro x hx
  rw [List.mem_singleton] at hx
  subst hx
  decide

/-- C6: a failure of the multipart body parser is surfaced by the
dispatcher's catch clause as status 400 with the JSON payload
`{ error: message }`, and every failure not tagged with the upload-error
marker is surfaced as the fixed response `500 'Internal Server Error'`,
which is a constant independent of the failure (no failure detail can
appear in it). -/
theorem c6_upload_400_opaque_500 :
    (∀ (options : Option UploadOptions) (fd : Except JsError (List FormEntry)) (e : JsError),
        parseBodyMultipart options fd = .error e →
        errorResponse e = ⟨400, jsonStringifyError e.message, some "application/json"⟩) ∧
    (∀ e : JsError, isUploadError e = false →
        errorResponse e = ⟨500, "Internal Server Error", none⟩) := by
  constructor
  · intro options fd e h
    obtain ⟨m, rfl⟩ := parseBodyMultipart_error_shape options fd e h
    simp [errorResponse, isUploadError_wrap]
  · intro e he
    simp [errorResponse, he]

/-- C6 (witness): an oversized upload (20 bytes against a 10-byte limit)
is rejected as a 400 with a JSON body carrying the wrapped message, while
an untagged handler failure gets the constant opaque 500. -/
theorem c6_witness :
    errorResponse (.error "File upload error: File a.png exceeds maximum size of 10 bytes") =
      ⟨400, jsonStringifyError
        "File upload error: File a.png exceeds maximum size of 10 bytes",
        some "application/json"⟩ ∧
    errorResponse (.error "boom") = ⟨500, "Internal Server Error", none⟩ := by
  constructor
  · exact c6_upload_400_opaque_500.1 (some ⟨some 10, none, none⟩)
      (.ok [.file ⟨"a.png", "image/png", 20⟩])
      (.error "File upload error: File a.png exceeds maximum size of 10 bytes") rfl
  · exact c6_upload_400_opaque_500.2 (.error "boom") (by decide)

/-- C7: for a pipeline whose steps each write key/value pairs into the
context state and then call `next()`, the terminal handler runs exactly
once and observes the initial state with every step's writes folded over
it in order; per key the value is last-writer-wins (the `recSet` law); in
particular with S1 writing `x := 1` and S2 writing `y := 2` the handler
observes a state with `x = 1` and `y = 2`. -/
theorem c7_state_accumulation :
    (∀ (wss : List StateRec) (init : StateRec),
        (MiddlewarePipeline.execute [⟨wss.map StepB.writes, init⟩] 0).2 =
          [wss.foldl applyWrites init]) ∧
    (∀ (r : StateRec) (k : String) (v : Nat) (q : String),
        recGet (recSet r k v) q = if q = k then some v else recGet r q) ∧
    ((MiddlewarePipeline.execute [⟨[.writes [("x", 1)], .writes [("y", 2)]], []⟩] 0).2.map
        (fun st => (recGet st "x", recGet st "y")) = [(some 1, some 2)]) := by
  refine ⟨?_, fun r k v q => recGet_recSet r k v q, ?_⟩
  · intro wss init
    show (runNext (wss.map StepB.writes) init []).val.2.2 = [wss.foldl applyWrites init]
    rw [runNext_writes_chain]
    rfl
  · show ((runNext [StepB.writes [("x", 1)], StepB.writes [("y", 2)]] [] []).val.2.2).map
        (fun st => (recGet st "x", recGet st "y")) = [(some 1, some 2)]
    rw [runNext_writes_cons, runNext_writes_cons]
    show ((runNext [] [("x", 1), ("y", 2)] []).val.2.2).map
        (fun st => (recGet st "x", recGet st "y")) = [(some 1, some 2)]
    rw [runNext_nil]
    rfl

/-- C8: `use` never mutates its receiver: after `p1 = base.use(A)` and
`p2 = base.use(B)`, `p1` holds base's steps followed by `A` and does not
contain `B`, `p2` holds base's steps followed by `B` and does not contain
`A`, and the heap cell of `base` is unchanged. -/
theorem c8_use_is_non_mutating {μ : Type} (h : Heap μ) (pObj : MiddlewarePipeline μ)
    (base : Nat) (A B : μ)
    (hbase : h[base]? = some pObj)
    (hBnotin : B ∉ pObj.middlewares) (hAnotin : A ∉ pObj.middlewares) (hAB : A ≠ B) :
    let u1 := MiddlewarePipeline.use h base A
    let u2 := MiddlewarePipeline.use u1.1 base B
    u2.1[u1.2]? = some ⟨pObj.middlewares ++ [A], []⟩ ∧
    u2.1[u2.2]? = some ⟨pObj.middlewares ++ [B], []⟩ ∧
    B ∉ (getObj u2.1 u1.2).middlewares ∧
    A ∉ (getObj u2.1 u2.2).middlewares ∧
    u2.1[base]? = some pObj := by
  intro u1 u2
  have hblt : base < h.length := by
    by_contra hge
    rw [List.getElem?_eq_none (by omega)] at hbase
    cases hbase
  have hObj : getObj h base = pObj := by
    simp [getObj, List.getD, List.get?_eq_getElem?, hbase]
  have hu11 : u1.1 = h ++ [⟨pObj.middlewares ++ [A], []⟩] := by
    show (h ++ [⟨(getObj h base).middlewares ++ [A], []⟩]) = _
    rw [hObj]
  have hbase1 : u1.1[base]? = some pObj := by
    rw [hu11, List.getElem?_append_left hblt]
    exact hbase
  have hObj1 : getObj u1.1 base = pObj := by
    simp [getObj, List.getD, List.get?_eq_getElem?, hbase1]
  have hu21 : u2.1 = (h ++ [⟨pObj.middlewares ++ [A], []⟩]) ++
      [⟨pObj.middlewares ++ [B], []⟩] := by
    show (u1.1 ++ [⟨(getObj u1.1 base).middlewares ++ [B], []⟩]) = _
    rw [hObj1, hu11]
  have hu12 : u1.2 = h.length := rfl
  have hu22 : u2.2 = h.length + 1 := by
    show u1.1.length = _
    rw [hu11]
    simp
  have hllen : (h ++ [(⟨pObj.middlewares ++ [A], []⟩ : MiddlewarePipeline μ)]).length =
      h.length + 1 := by
    simp
  have hlook1 : u2.1[u1.2]? = some ⟨pObj.middlewares ++ [A], []⟩ := by
    rw [hu21, hu12, List.getElem?_append_left (by simp), List.getElem?_concat_length]
  have hlook2 : u2.1[u2.2]? = some ⟨pObj.middlewares ++ [B], []⟩ := by
    rw [hu21, hu22, ← hllen, List.getElem?_concat_length]
  refine ⟨hlook1, hlook2, ?_, ?_, ?_⟩
  · have hg : getObj u2.1 u1.2 = ⟨pObj.middlewares ++ [A], []⟩ := by
      simp [getObj, List.getD, List.get?_eq_getElem?, hlook1]
    rw [hg]
    intro hmem
    rcases List.mem_append.mp hmem with h1 | h1
    · exact hBnotin h1
    · rw [List.mem_singleton] at h1
      exact hAB h1.symm
  · have hg : getObj u2.1 u2.2 = ⟨pObj.middlewares ++ [B], []⟩ := by
      simp [getObj, List.getD, List.get?_eq_getElem?, hlook2]
    rw [hg]
    intro hmem
    rcases List.mem_append.mp hmem with h1 | h1
    · exact hAnotin h1
    · rw [List.mem_singleton] at h1
      exact hAB h1
  · rw [hu21, List.getElem?_append_left (by simp; omega), List.getElem?_append_left hblt]
    exact hbase

/-- C8 (witness): branching an empty base pipeline with steps 1 and 2
yields two independent pipelines and leaves the base cell unchanged. -/
theorem c8_witness :
    let u1 := MiddlewarePipeline.use ([⟨[], []⟩] : Heap Nat) 0 1
    let u2 := MiddlewarePipeline.use u1.1 0 2
    u2.1[u1.2]? = some ⟨[1], []⟩ ∧
    u2.1[u2.2]? = some ⟨[2], []⟩ ∧
    (2 : Nat) ∉ (getObj u2.1 u1.2).middlewares ∧
    (1 : Nat) ∉ (getObj u2.1 u2.2).middlewares ∧
    u2.1[0]? = some ⟨[], []⟩ :=
  c8_use_is_non_mutating [⟨[], []⟩] ⟨[], []⟩ 0 1 2 (by decide) (by simp) (by simp) (by decide)

/-- C9: a path matches only if its segment count does not exceed the
pattern's segment count and is at least the number of non-optional pattern
segments; for the trailing-optional pattern `/a/:b?`, path `/a` matches
with key `b` absent, and path `/a/x` matches with `b` bound to the
percent-decoded value `x`. -/
theorem c9_length_policy :
    (∀ pattern pathname : String,
        matchRoute pattern pathname = true →
        minPatternLength (splitSlash pattern) ≤ (splitSlash pathname).length ∧
        (splitSlash pathname).length ≤ (splitSlash pattern).length) ∧
    matchRoute "/a/:b?" "/a" = true ∧
    parseURLParams "/a/:b?" "/a" = .ok [] ∧
    matchRoute "/a/:b?" "/a/x" = true ∧
    parseURLParams "/a/:b?" "/a/x" = .ok [("b", "x")] ∧
    recGet [("b", "x")] "b" = some "x" ∧
    decodeURIComponent "x" = .ok "x" := by
  refine ⟨?_, by decide, rfl, by decide, rfl, by decide, rfl⟩
  intro pattern pathname h
  have h2 : (if (splitSlash pathname).length < minPatternLength (splitSlash pattern) then false
      else if (splitSlash pathname).length > (splitSlash pattern).length then false
      else partsMatch (splitSlash pattern) (splitSlash pathname)) = true := h
  split at h2
  · simp at h2
  · split at h2
    · simp at h2
    · rename_i hlt hgt
      exact ⟨Nat.le_of_not_lt hlt, Nat.le_of_not_lt hgt⟩

/-- C9 (witness): for pattern `/a/:b?` and matching path `/a` both bounds
of the length policy hold. -/
theorem c9_witness :
    minPatternLength (splitSlash "/a/:b?") ≤ (splitSlash "/a").length ∧
    (splitSlash "/a").length ≤ (splitSlash "/a/:b?").length :=
  c9_length_policy.1 "/a/:b?" "/a" (by decide)

/-- C10: the dispatcher's 400-versus-500 choice depends only on whether
the thrown value is an `Error` whose message contains the substring
`'File upload error'`; every failure of the multipart branch — including
a `formData()` failure unrelated to size, type, or count limits — is
wrapped with that marker and therefore surfaced as a 400 with a JSON
content type. -/
theorem c10_upload_marker_criterion :
    (∀ e : JsError, (errorResponse e).status = if isUploadError e then 400 else 500) ∧
    (∀ (options : Option UploadOptions) (fd : Except JsError (List FormEntry)) (e : JsError),
        parseBodyMultipart options fd = .error e →
        isUploadError e = true ∧ (errorResponse e).status = 400 ∧
        (errorResponse e).contentType = some "application/json") ∧
    parseBodyMultipart none (.error .other) =
      .error (.error "File upload error: Unknown error") := by
  refine ⟨?_, ?_, rfl⟩
  · intro e
    by_cases hu : isUploadError e
    · simp [errorResponse, hu]
    · simp only [Bool.not_eq_true] at hu
      simp [errorResponse, hu]
  · intro options fd e h
    obtain ⟨m, rfl⟩ := parseBodyMultipart_error_shape options fd e h
    refine ⟨isUploadError_wrap m, ?_, ?_⟩ <;>
      simp [errorResponse, isUploadError_wrap]

/-- C10 (witness): a non-Error thrown by `formData()` — a failure
unrelated to the upload limits — is wrapped with the marker and surfaced
as a 400 with JSON content type. -/
theorem c10_witness :
    isUploadError (.error "File upload error: Unknown error") = true ∧
    (errorResponse (.error "File upload error: Unknown error")).status = 400 ∧
    (errorResponse (.error "File upload error: Unknown error")).contentType =
      some "application/json" :=
  c10_upload_marker_criterion.2.1 none (.error .other)
    (.error "File upload error: Unknown error") rfl

end Imphnen
